import Mathlib

/-
Shallow embedding of the hierarchical state machine core in
src/state_machine.c (public API in inc/state_machine.h).

Modelling conventions:
  * State pointers are indices into a `StateGraph` arena (`Option Nat`,
    with `none` playing the role of the C NULL pointer); pointer equality
    in the C source becomes index equality, so two distinct states with
    identical contents remain distinct, and disjoint hierarchies are
    representable.
  * Every C loop that walks a `parent` chain is given a fuel parameter;
    the value `none` of the surrounding `Option` means the execution is
    undefined in the model (fuel exhausted, i.e. the walk did not
    terminate within the allotted bound, or a dangling state index was
    dereferenced).  All theorems carry hypotheses ensuring enough fuel.
  * Entry/exit actions and transition actions are side effects in C;
    they are modelled as labels recorded in an event trace
    (`TraceEvent`).  An exit/entry trace element is recorded exactly
    when the C code would invoke the corresponding non-NULL function
    pointer.  Guards are modelled as Boolean functions of the machine
    and the event, mirroring `SM_GuardFn`.
  * `uint8_t` depth arithmetic in `get_state_depth` wraps at 256, which
    the model reproduces with an explicit `% 256`.  The `path_idx`
    counter never exceeds `bufferSize` (checked before each increment),
    so it is a plain `Nat`.  The `path_length` parameter of
    `execute_entry_actions` is a `uint8_t` that the source converts to
    `int8_t` (`entry_idx = (int8_t)path_length - 1`): the model applies
    the twos-complement conversion exactly (`int8OfUInt8`, `int8Wrap`),
    so path lengths 129 to 255 start the loop at a negative index and
    run zero entry actions, as the program does.
  * A transition table is a list (the C source keeps a pointer plus a
    count; a NULL or empty table corresponds to the empty list).
-/

/-- Model of `struct SM_Event`: a numeric id plus an opaque context
payload (the C `void *context` is modelled as an optional integer). -/
structure SM_Event where
  id : Nat
  context : Option Int
deriving DecidableEq

/-- Model of `SM_TransitionType`: `ext` is SM_TRANSITION_EXTERNAL,
`intern` is SM_TRANSITION_INTERNAL. -/
inductive SM_TransitionType where
  | ext
  | intern
deriving DecidableEq

/-- Model of `struct SM_StateMachine`.  The entry path buffer is the
list of cells written so far (`none` models a NULL buffer pointer);
`unhandledEventHook` records whether a hook is registered (its body is
modelled as a trace event). -/
structure SM_StateMachine where
  currentState : Option Nat
  initialState : Option Nat
  userData : Option Int
  unhandledEventHook : Bool
  entryPathBuffer : Option (List Nat)
  bufferSize : Nat
deriving DecidableEq

/-- Model of `struct SM_Transition`.  The action is an opaque label
recorded in the trace when it fires; the guard is a Boolean predicate
over machine and event, as `SM_GuardFn` is. -/
structure SM_Transition where
  eventId : Nat
  target : Option Nat
  guard : Option (SM_StateMachine → SM_Event → Bool)
  action : Option Nat
  type : SM_TransitionType

/-- Model of `struct SM_State`.  Entry/exit actions are opaque labels
(`none` models a NULL function pointer). -/
structure SM_State where
  parent : Option Nat
  entryAction : Option Nat
  exitAction : Option Nat
  transitions : List SM_Transition
  name : Option String

/-- The arena of states; a state pointer is an index into this list. -/
structure StateGraph where
  states : List SM_State

/-- Dereference a state pointer. `none` corresponds to a dangling
pointer, whose dereference is undefined behaviour. -/
def StateGraph.lookup (g : StateGraph) (i : Nat) : Option SM_State :=
  g.states.get? i

/-- Observable events of an execution: exit/entry actions invoked on a
state, transition action labels, and invocations of the unhandled-event
hook with the dispatched event. -/
inductive TraceEvent where
  | exit (s : Nat)
  | entry (s : Nat)
  | act (label : Nat)
  | hook (e : SM_Event)
deriving DecidableEq

/-- Specification-side helper (not a C function): the list of states
visited when walking parent pointers from `s` until reaching `stop`
(exclusive) or NULL, provided the walk terminates within `fuel` steps
and dereferences no dangling index. -/
def chainUpTo (g : StateGraph) : Nat → Option Nat → Option Nat → Option (List Nat)
  | _, none, _ => some []
  | 0, some s, stop => if some s = stop then some [] else none
  | fuel + 1, some s, stop =>
    if some s = stop then some []
    else
      match g.lookup s with
      | none => none
      | some st => (chainUpTo g fuel st.parent stop).map (fun c => s :: c)

/-- Embedding of `get_state_depth`: counts parent hops in a `uint8_t`,
hence the explicit wrap at 256. -/
def get_state_depth (g : StateGraph) : Nat → Option Nat → Option Nat
  | _, none => some 0
  | 0, some _ => none
  | fuel + 1, some s =>
    match g.lookup s with
    | none => none
    | some st => (get_state_depth g fuel st.parent).map (fun d => (d + 1) % 256)

/-- Embedding of the two depth-equalisation loops in `find_lca`: walk
`k` parent hops (the loop runs exactly the depth difference many times;
dereferencing NULL or a dangling index is undefined). -/
def walkUp (g : StateGraph) : Nat → Option Nat → Option (Option Nat)
  | 0, p => some p
  | _ + 1, none => none
  | k + 1, some s =>
    match g.lookup s with
    | none => none
    | some st => walkUp g k st.parent

/-- Embedding of the lockstep loop in `find_lca`: advance both pointers
until they are equal (pointer identity). -/
def lockstep (g : StateGraph) : Nat → Option Nat → Option Nat → Option (Option Nat)
  | 0, p1, p2 => if p1 = p2 then some p1 else none
  | fuel + 1, p1, p2 =>
    if p1 = p2 then some p1
    else
      match p1, p2 with
      | some s1, some s2 =>
        match g.lookup s1, g.lookup s2 with
        | some st1, some st2 => lockstep g fuel st1.parent st2.parent
        | _, _ => none
      | _, _ => none

/-- Embedding of `find_lca`: NULL inputs yield a NULL result; otherwise
equalise depths and walk both chains in lockstep. -/
def find_lca (g : StateGraph) (fuel : Nat) (s1 s2 : Option Nat) : Option (Option Nat) :=
  match s1, s2 with
  | some a, some b =>
    match get_state_depth g fuel (some a), get_state_depth g fuel (some b) with
    | some d1, some d2 =>
      match walkUp g (d1 - d2) (some a) with
      | none => none
      | some p1 =>
        match walkUp g (d2 - d1) (some b) with
        | none => none
        | some p2 => lockstep g fuel p1 p2
    | _, _ => none
  | _, _ => some none

/-- Embedding of the scanning loop of `find_matching_transition`: the
first entry whose `eventId` matches stops the scan (the loop flag
`found` is set on any id match); the guard of that entry alone decides
`guard_passed` (a NULL guard passes). -/
def scan_transitions (sm : SM_StateMachine) (e : SM_Event) :
    List SM_Transition → Option SM_Transition × Bool
  | [] => (none, false)
  | t :: rest =>
    if t.eventId = e.id then
      (some t,
        match t.guard with
        | none => true
        | some gd => gd sm e)
    else scan_transitions sm e rest

/-- Embedding of `find_matching_transition` (the NULL-table and
zero-count early exits coincide with scanning the empty list). -/
def find_matching_transition (state : SM_State) (e : SM_Event) (sm : SM_StateMachine) :
    Option SM_Transition × Bool :=
  scan_transitions sm e state.transitions

/-- Embedding of `execute_exit_actions`: walk from the source state up
to the LCA (exclusive), recording each non-NULL exit action. -/
def execute_exit_actions (g : StateGraph) : Nat → Option Nat → Option Nat → Option (List TraceEvent)
  | _, none, _ => some []
  | 0, some s, lca => if some s = lca then some [] else none
  | fuel + 1, some s, lca =>
    if some s = lca then some []
    else
      match g.lookup s with
      | none => none
      | some st =>
        (execute_exit_actions g fuel st.parent lca).map
          (fun tr => (if st.exitAction.isSome then [TraceEvent.exit s] else []) ++ tr)

/-- Write one buffer cell; the C buffer is modelled by the list of
cells written so far, and writes are sequential from index 0. -/
def setCell (buf : List Nat) (idx s : Nat) : List Nat :=
  if idx < buf.length then buf.set idx s else buf ++ [s]

/-- Embedding of the loop of `build_entry_path`: walk from the target
up to the LCA (exclusive), writing each state into the entry path
buffer; the bounds check `path_idx < bufferSize` precedes each write,
and its failure ends the loop with `success = false`. -/
def build_path_loop (g : StateGraph) : Nat → Nat → SM_StateMachine → Option Nat → Option Nat →
    Option (Bool × SM_StateMachine)
  | _, _, sm, none, _ => some (true, sm)
  | 0, idx, sm, some s, lca =>
    if some s = lca then some (true, sm)
    else if idx < sm.bufferSize then none
    else some (false, sm)
  | fuel + 1, idx, sm, some s, lca =>
    if some s = lca then some (true, sm)
    else if idx < sm.bufferSize then
      match sm.entryPathBuffer with
      | none => none
      | some buf =>
        match g.lookup s with
        | none => none
        | some st =>
          build_path_loop g fuel (idx + 1)
            { sm with entryPathBuffer := some (setCell buf idx s) } st.parent lca
    else some (false, sm)

/-- Embedding of `build_entry_path`. -/
def build_entry_path (g : StateGraph) (fuel : Nat) (sm : SM_StateMachine)
    (target lca : Option Nat) : Option (Bool × SM_StateMachine) :=
  build_path_loop g fuel 0 sm target lca

/-- Embedding of the path-length loop in `perform_transition` (runs
only after a successful `build_entry_path`, so the count never exceeds
`bufferSize`, a `uint8_t`, and cannot wrap). -/
def count_entry_path (g : StateGraph) : Nat → Option Nat → Option Nat → Option Nat
  | _, none, _ => some 0
  | 0, some s, lca => if some s = lca then some 0 else none
  | fuel + 1, some s, lca =>
    if some s = lca then some 0
    else
      match g.lookup s with
      | none => none
      | some st => (count_entry_path g fuel st.parent lca).map (fun n => n + 1)

/-- Embedding of the downward loop of `execute_entry_actions`: the
cells `k-1, k-2, ..., 0` of the buffer are dereferenced in that order,
recording each non-NULL entry action. -/
def entries_from (g : StateGraph) (buf : List Nat) : Nat → Option (List TraceEvent)
  | 0 => some []
  | k + 1 =>
    match buf.get? k with
    | none => none
    | some s =>
      match g.lookup s with
      | none => none
      | some st =>
        (entries_from g buf k).map
          (fun tr => (if st.entryAction.isSome then [TraceEvent.entry s] else []) ++ tr)

/-- Twos-complement reading of a `uint8_t` value as `int8_t` (the cast
`(int8_t)path_length` in the source); the `% 256` models the `uint8_t`
parameter. -/
def int8OfUInt8 (n : Nat) : Int :=
  if n % 256 < 128 then ((n % 256 : Nat) : Int) else ((n % 256 : Nat) : Int) - 256

/-- Conversion of an `int` value into the `int8_t` range on storage
(twos-complement wrap into -128..127). -/
def int8Wrap (x : Int) : Int :=
  (x + 128) % 256 - 128

/-- Embedding of `execute_entry_actions`.  The source computes
`int8_t entry_idx = (int8_t)path_length - 1` and loops while
`entry_idx >= 0`, so the number of iterations is `entry_idx + 1`
clamped at zero: equal to the path length for lengths up to 128, and
zero for lengths 129 to 255 (the `int8_t` cast makes the start index
negative).  When the loop body never runs the buffer pointer is never
dereferenced. -/
def execute_entry_actions (g : StateGraph) (sm : SM_StateMachine) (pathLength : Nat) :
    Option (List TraceEvent) :=
  match (int8Wrap (int8OfUInt8 pathLength - 1) + 1).toNat with
  | 0 => some []
  | k + 1 =>
    match sm.entryPathBuffer with
    | none => none
    | some buf => entries_from g buf (k + 1)

/-- Embedding of `perform_transition`: NULL target is a no-op; a
self-transition runs exit then entry of the same state; otherwise the
exit path runs, the entry path is built into the buffer, and only on a
successful build is `currentState` updated and the entry actions run. -/
def perform_transition (g : StateGraph) (fuel : Nat) (sm : SM_StateMachine)
    (targetState : Option Nat) (event : Option SM_Event) :
    Option (SM_StateMachine × List TraceEvent) :=
  match targetState with
  | none => some (sm, [])
  | some target =>
    if sm.currentState = some target then
      match g.lookup target with
      | none => none
      | some st =>
        some (sm,
          (if st.exitAction.isSome then [TraceEvent.exit target] else []) ++
          (if st.entryAction.isSome then [TraceEvent.entry target] else []))
    else
      match find_lca g fuel sm.currentState (some target) with
      | none => none
      | some lca =>
        match execute_exit_actions g fuel sm.currentState lca with
        | none => none
        | some exitTr =>
          match build_entry_path g fuel sm (some target) lca with
          | none => none
          | some (pathBuilt, sm1) =>
            if pathBuilt then
              match count_entry_path g fuel (some target) lca with
              | none => none
              | some pathLen =>
                let sm2 := { sm1 with currentState := some target }
                match execute_entry_actions g sm2 pathLen with
                | none => none
                | some entryTr => some (sm2, exitTr ++ entryTr)
            else
              some (sm1, exitTr)

/-- Trace of a transition action (fires only when non-NULL). -/
def transition_action_trace (t : SM_Transition) : List TraceEvent :=
  match t.action with
  | none => []
  | some l => [TraceEvent.act l]

/-- Embedding of `execute_transition`: an internal transition runs just
its action; an external transition runs its action and then performs
the state change. -/
def execute_transition (g : StateGraph) (fuel : Nat) (sm : SM_StateMachine)
    (t : SM_Transition) (e : SM_Event) :
    Option (Bool × SM_StateMachine × List TraceEvent) :=
  match t.type with
  | SM_TransitionType.intern => some (true, sm, transition_action_trace t)
  | SM_TransitionType.ext =>
    match perform_transition g fuel sm t.target (some e) with
    | none => none
    | some (sm', tr) => some (true, sm', transition_action_trace t ++ tr)

/-- Embedding of `process_state_transitions`: handled exactly when a
matching transition was found and its guard passed. -/
def process_state_transitions (g : StateGraph) (fuel : Nat) (sm : SM_StateMachine)
    (st : SM_State) (e : SM_Event) :
    Option (Bool × SM_StateMachine × List TraceEvent) :=
  match find_matching_transition st e sm with
  | (some t, true) => execute_transition g fuel sm t e
  | _ => some (false, sm, [])

/-- Embedding of the ancestor walk in `SM_Dispatch`: try each state of
the parent chain in turn until one handles the event. `ifuel` is the
fuel handed to the inner transition machinery. -/
def dispatch_loop (g : StateGraph) (ifuel : Nat) (sm : SM_StateMachine) (e : SM_Event) :
    Nat → Option Nat → Option (Bool × SM_StateMachine × List TraceEvent)
  | _, none => some (false, sm, [])
  | 0, some _ => none
  | fuel + 1, some s =>
    match g.lookup s with
    | none => none
    | some st =>
      match process_state_transitions g ifuel sm st e with
      | none => none
      | some (true, sm', tr) => some (true, sm', tr)
      | some (false, _, _) => dispatch_loop g ifuel sm e fuel st.parent

/-- Embedding of `SM_Dispatch`: validates the two pointers, walks the
ancestor chain, and on failure invokes the unhandled-event hook when
registered; returns whether the event was handled. -/
def SM_Dispatch (g : StateGraph) (fuel : Nat) (smPtr : Option SM_StateMachine)
    (eventPtr : Option SM_Event) :
    Option (Bool × Option SM_StateMachine × List TraceEvent) :=
  match smPtr, eventPtr with
  | some sm, some e =>
    match dispatch_loop g fuel sm e fuel sm.currentState with
    | none => none
    | some (handled, sm', tr) =>
      let hookTr := if (!handled) && sm'.unhandledEventHook then [TraceEvent.hook e] else []
      some (handled, some sm', tr ++ hookTr)
  | _, _ => some (false, smPtr, [])

/-- Embedding of `SM_Init`: on valid parameters the fields are set,
`currentState` is cleared and the initial transition is performed; on
invalid parameters the instance is untouched. -/
def SM_Init (g : StateGraph) (fuel : Nat) (smPtr : Option SM_StateMachine)
    (initialState : Option Nat) (entryPathBufferValid : Bool) (bufferSize : Nat)
    (userData : Option Int) (unhandledHook : Bool) :
    Option (Option SM_StateMachine × List TraceEvent) :=
  match smPtr with
  | none => some (none, [])
  | some sm =>
    if initialState.isSome && entryPathBufferValid && decide (0 < bufferSize) then
      let sm1 : SM_StateMachine :=
        { currentState := none, initialState := initialState, userData := userData,
          unhandledEventHook := unhandledHook, entryPathBuffer := some [],
          bufferSize := bufferSize }
      match perform_transition g fuel sm1 initialState none with
      | none => none
      | some (sm2, tr) => some (some sm2, tr)
    else
      some (some sm, [])

/-- Embedding of `SM_Deinit`: clears every field without invoking any
action (the empty trace). -/
def SM_Deinit (smPtr : Option SM_StateMachine) :
    Option SM_StateMachine × List TraceEvent :=
  match smPtr with
  | none => (none, [])
  | some _ =>
    (some { currentState := none, initialState := none, userData := none,
            unhandledEventHook := false, entryPathBuffer := none, bufferSize := 0 }, [])

/-- Embedding of `SM_Reset`: a full transition back to the initial
state (no-op when uninitialised). -/
def SM_Reset (g : StateGraph) (fuel : Nat) (smPtr : Option SM_StateMachine) :
    Option (Option SM_StateMachine × List TraceEvent) :=
  match smPtr with
  | none => some (none, [])
  | some sm =>
    match sm.initialState with
    | none => some (some sm, [])
    | some _ =>
      match perform_transition g fuel sm sm.initialState none with
      | none => none
      | some (sm', tr) => some (some sm', tr)

/-- Embedding of the search loop of `SM_IsInState`. -/
def isin_loop (g : StateGraph) (target : Nat) : Nat → Option Nat → Option Bool
  | _, none => some false
  | 0, some s => if s = target then some true else none
  | fuel + 1, some s =>
    if s = target then some true
    else
      match g.lookup s with
      | none => none
      | some st => isin_loop g target fuel st.parent

/-- Embedding of `SM_IsInState`. -/
def SM_IsInState (g : StateGraph) (fuel : Nat) (smPtr : Option SM_StateMachine)
    (statePtr : Option Nat) : Option Bool :=
  match smPtr, statePtr with
  | some sm, some st => isin_loop g st fuel sm.currentState
  | _, _ => some false

/-- Embedding of `SM_GetCurrentStateName`: the sentinel string is
returned when the instance, the current state or its name is NULL. -/
def SM_GetCurrentStateName (g : StateGraph) (smPtr : Option SM_StateMachine) :
    Option String :=
  match smPtr with
  | none => some "Unknown"
  | some sm =>
    match sm.currentState with
    | none => some "Unknown"
    | some s =>
      match g.lookup s with
      | none => none
      | some st =>
        match st.name with
        | none => some "Unknown"
        | some n => some n

/-
Concrete fixtures used by witnesses and by the C1 evaluation.
`postGraph` mirrors the POST example from examples/post_state.c: one top
level POST state whose table holds two entries for the same event id 5,
the first guarded by "answer is 1" and the second by "answer is 2".
-/

/-- Guard of the first EV_POST_ANSWER entry (passes when the answer payload is 1). -/
def postGuardFail : SM_StateMachine → SM_Event → Bool :=
  fun _ e => decide (e.context = some 1)

/-- Guard of the second EV_POST_ANSWER entry (passes when the answer payload is 2). -/
def postGuardPass : SM_StateMachine → SM_Event → Bool :=
  fun _ e => decide (e.context = some 2)

/-- POST-style state arena: state 0 (POST) has two transitions for event 5,
the first targeting state 1 (POSTFAIL) with action label 11, the second
targeting state 2 (POSTPASS) with action label 12. -/
def postGraph : StateGraph :=
  ⟨[{ parent := none, entryAction := some 1, exitAction := some 2,
      transitions :=
        [{ eventId := 5, target := some 1, guard := some postGuardFail,
           action := some 11, type := SM_TransitionType.ext },
         { eventId := 5, target := some 2, guard := some postGuardPass,
           action := some 12, type := SM_TransitionType.ext }],
      name := some "POST" },
    { parent := none, entryAction := some 3, exitAction := none,
      transitions := [], name := some "POSTFAIL" },
    { parent := none, entryAction := some 4, exitAction := none,
      transitions := [], name := some "POSTPASS" }]⟩

/-- Machine sitting in the POST state with a registered unhandled hook. -/
def postMachine : SM_StateMachine :=
  { currentState := some 0, initialState := some 0, userData := none,
    unhandledEventHook := true, entryPathBuffer := some [], bufferSize := 8 }

/-- The EV_POST_ANSWER event with the correct answer payload 2: the first
entry's guard fails and the second entry's guard passes. -/
def postAnswerEvent : SM_Event := { id := 5, context := some 2 }

/-- Small three-level demo hierarchy used by several witnesses:
state 0 = Root, state 1 = On (child of Root), state 2 = Idle (child of
On), state 3 = Off (child of Root). -/
def demoGraph : StateGraph :=
  ⟨[{ parent := none, entryAction := some 100, exitAction := some 101,
      transitions := [], name := some "Root" },
    { parent := some 0, entryAction := some 110, exitAction := some 111,
      transitions :=
        [{ eventId := 7, target := some 3, guard := none,
           action := some 71, type := SM_TransitionType.ext }],
      name := some "On" },
    { parent := some 1, entryAction := some 120, exitAction := some 121,
      transitions :=
        [{ eventId := 9, target := none, guard := none,
           action := some 91, type := SM_TransitionType.intern }],
      name := some "Idle" },
    { parent := some 0, entryAction := some 130, exitAction := some 131,
      transitions := [], name := some "Off" }]⟩

/-- Demo machine currently in the Idle leaf state. -/
def demoMachine : SM_StateMachine :=
  { currentState := some 2, initialState := some 2, userData := none,
    unhandledEventHook := true, entryPathBuffer := some [], bufferSize := 8 }

/-- C1: the claim states that when the first table entry matching the
event id has a failing guard, the dispatcher keeps scanning the same
table and commits to a later passing entry.  Evaluating the embedded
code on the POST fixture refutes this: in state POST (two entries for
event 5, the first guard failing and the second passing on payload 2),
dispatch stops at the first id match, treats the event as unhandled,
invokes the unhandled hook and returns false; the second entry's action
(label 12) never fires and no transition is performed. -/
theorem c1_first_match_stops_scan :
    SM_Dispatch postGraph 8 (some postMachine) (some postAnswerEvent) =
      some (false, some postMachine, [TraceEvent.hook postAnswerEvent]) := by
  rfl

/-- C5: an external transition whose target equals the current state
runs exactly that state's exit action (if any) followed by its entry
action (if any) and returns the machine unchanged, so `currentState`
keeps its value. -/
theorem c5_self_transition (g : StateGraph) (fuel : Nat) (sm : SM_StateMachine)
    (a : Nat) (st : SM_State) (ev : Option SM_Event)
    (hcur : sm.currentState = some a) (hst : g.lookup a = some st) :
    perform_transition g fuel sm (some a) ev =
      some (sm, (if st.exitAction.isSome then [TraceEvent.exit a] else []) ++
                (if st.entryAction.isSome then [TraceEvent.entry a] else [])) := by
  simp [perform_transition, hcur, hst]

/-- Witness for C5 on the demo hierarchy: a self-transition of the Idle
state fires its exit action then its entry action and nothing else. -/
theorem c5_self_transition_witness :
    perform_transition demoGraph 8 demoMachine (some 2) none =
      some (demoMachine, [TraceEvent.exit 2, TraceEvent.entry 2]) := by
  have h := c5_self_transition demoGraph 8 demoMachine 2
    { parent := some 1, entryAction := some 120, exitAction := some 121,
      transitions :=
        [{ eventId := 9, target := none, guard := none,
           action := some 91, type := SM_TransitionType.intern }],
      name := some "Idle" } none rfl rfl
  simpa using h

/-- C6: executing a transition of internal kind runs only the
transition's action: the machine (in particular `currentState`) is
unchanged and the produced trace contains no entry and no exit action. -/
theorem c6_internal_transition (g : StateGraph) (fuel : Nat) (sm : SM_StateMachine)
    (t : SM_Transition) (e : SM_Event) (hint : t.type = SM_TransitionType.intern) :
    execute_transition g fuel sm t e = some (true, sm, transition_action_trace t) ∧
    (∀ s, TraceEvent.entry s ∉ transition_action_trace t) ∧
    (∀ s, TraceEvent.exit s ∉ transition_action_trace t) := by
  refine ⟨by simp [execute_transition, hint], ?_, ?_⟩ <;>
    · intro s
      unfold transition_action_trace
      cases t.action <;> simp

/-- Witness for C6 on the demo hierarchy: the internal transition for
event 9 in Idle fires only its action label 91. -/
theorem c6_internal_transition_witness :
    execute_transition demoGraph 8 demoMachine
      { eventId := 9, target := none, guard := none, action := some 91,
        type := SM_TransitionType.intern } { id := 9, context := none } =
      some (true, demoMachine, [TraceEvent.act 91]) := by
  have h := (c6_internal_transition demoGraph 8 demoMachine
    { eventId := 9, target := none, guard := none, action := some 91,
      type := SM_TransitionType.intern } { id := 9, context := none } rfl).1
  simpa [transition_action_trace] using h

/-- C8: SM_Deinit clears every field (current state, initial state,
user data, hook, buffer pointer to null; buffer size to zero) with an
empty trace, so no exit action is invoked, and SM_GetCurrentStateName
on the cleared instance returns the sentinel "Unknown". -/
theorem c8_deinit_clears_fields (g : StateGraph) (sm : SM_StateMachine) :
    SM_Deinit (some sm) =
      (some { currentState := none, initialState := none, userData := none,
              unhandledEventHook := false, entryPathBuffer := none,
              bufferSize := 0 }, []) ∧
    SM_GetCurrentStateName g (SM_Deinit (some sm)).1 = some "Unknown" :=
  ⟨rfl, rfl⟩

/-- C9: every public operation on a null instance pointer, null state,
null event, null buffer or zero buffer capacity is a no-op returning
the default value: SM_Init leaves the instance untouched in each
invalid-parameter case, SM_Deinit and SM_Reset do nothing, SM_Dispatch
and SM_IsInState return false, and SM_GetCurrentStateName returns
"Unknown". -/
theorem c9_null_parameter_no_ops (g : StateGraph) (fuel : Nat) :
    (∀ i bv bs ud hk, SM_Init g fuel none i bv bs ud hk = some (none, [])) ∧
    (∀ sm bv bs ud hk, SM_Init g fuel (some sm) none bv bs ud hk = some (some sm, [])) ∧
    (∀ sm i bs ud hk, SM_Init g fuel (some sm) i false bs ud hk = some (some sm, [])) ∧
    (∀ sm i bv ud hk, SM_Init g fuel (some sm) i bv 0 ud hk = some (some sm, [])) ∧
    SM_Deinit none = (none, []) ∧
    SM_Reset g fuel none = some (none, []) ∧
    (∀ e, SM_Dispatch g fuel none e = some (false, none, [])) ∧
    (∀ sm, SM_Dispatch g fuel (some sm) none = some (false, some sm, [])) ∧
    (∀ s, SM_IsInState g fuel none s = some false) ∧
    (∀ sm, SM_IsInState g fuel (some sm) none = some false) ∧
    SM_GetCurrentStateName g none = some "Unknown" := by
  refine ⟨fun i bv bs ud hk => rfl, fun sm bv bs ud hk => ?_,
    fun sm i bs ud hk => ?_, fun sm i bv ud hk => ?_, rfl, rfl,
    fun e => rfl, fun sm => rfl, fun s => rfl, fun sm => rfl, rfl⟩ <;>
    simp [SM_Init]

/-- C10: dispatching a null event pointer returns false without
invoking the unhandled hook (empty trace) even when a hook is
registered, and leaves the machine untouched. -/
theorem c10_null_event_no_hook (g : StateGraph) (fuel : Nat) (sm : SM_StateMachine)
    (hhook : sm.unhandledEventHook = true) :
    SM_Dispatch g fuel (some sm) none = some (false, some sm, []) := by
  rfl

/-- Witness for C10: the POST machine has a registered hook, and a null
event dispatch is a silent no-op returning false. -/
theorem c10_null_event_no_hook_witness :
    SM_Dispatch postGraph 8 (some postMachine) none =
      some (false, some postMachine, []) :=
  c10_null_event_no_hook postGraph 8 postMachine rfl

/-
Specification-side helpers relating the loop embeddings to parent
chains, plus list machinery for the longest common suffix (used to
characterise the LCA) and for the entry path buffer contents.
-/

/-- Exit-action trace generated by a list of states (in list order):
one `TraceEvent.exit` per state whose exit action is non-NULL. -/
def exitsOf (g : StateGraph) (c : List Nat) : List TraceEvent :=
  c.filterMap (fun s => (g.lookup s).bind
    (fun st => if st.exitAction.isSome then some (TraceEvent.exit s) else none))

/-- Entry-action trace generated by a list of states (in list order):
one `TraceEvent.entry` per state whose entry action is non-NULL. -/
def entriesOf (g : StateGraph) (c : List Nat) : List TraceEvent :=
  c.filterMap (fun s => (g.lookup s).bind
    (fun st => if st.entryAction.isSome then some (TraceEvent.entry s) else none))

/-- Longest common prefix of two lists of state indices. -/
def lcp : List Nat → List Nat → List Nat
  | a :: as, b :: bs => if a = b then a :: lcp as bs else []
  | _, _ => []

/-- Longest common suffix of two lists of state indices; for two root
chains this is the set of common ancestors, deepest first. -/
def commonSuffix (c1 c2 : List Nat) : List Nat :=
  (lcp c1.reverse c2.reverse).reverse

/-- Sequential buffer writes: write the elements of `c` into the
buffer starting at index `idx`, as the build loop does. -/
def writeChain : List Nat → Nat → List Nat → List Nat
  | buf, _, [] => buf
  | buf, idx, s :: c => writeChain (setCell buf idx s) (idx + 1) c

theorem chainUpTo_mono (g : StateGraph) :
    ∀ (f f' : Nat) (s stop : Option Nat) (c : List Nat), f ≤ f' →
      chainUpTo g f s stop = some c → chainUpTo g f' s stop = some c := by
  intro f
  induction f with
  | zero =>
    intro f' s stop c _ h
    match s with
    | none =>
      simp [chainUpTo] at h
      cases f' <;> simp [chainUpTo, h]
    | some s =>
      simp only [chainUpTo] at h
      by_cases hstop : some s = stop
      · simp [hstop] at h
        cases f' <;> simp [chainUpTo, hstop, h]
      · simp [hstop] at h
  | succ n ih =>
    intro f' s stop c hle h
    match s with
    | none =>
      simp [chainUpTo] at h
      cases f' <;> simp [chainUpTo, h]
    | some s =>
      obtain ⟨f'', rfl⟩ : ∃ f'', f' = f'' + 1 := ⟨f' - 1, by omega⟩
      simp only [chainUpTo] at h ⊢
      by_cases hstop : some s = stop
      · simp [hstop] at h ⊢; exact h
      · simp only [if_neg hstop] at h ⊢
        match hl : g.lookup s with
        | none => rw [hl] at h; exact absurd h (by simp)
        | some st =>
          rw [hl] at h
          simp only [Option.map_eq_some'] at h
          obtain ⟨c', hc', rfl⟩ := h
          have := ih f'' st.parent stop c' (by omega) hc'
          simp [this]

theorem chainUpTo_det (g : StateGraph) {f1 f2 : Nat} {s stop : Option Nat}
    {c1 c2 : List Nat} (h1 : chainUpTo g f1 s stop = some c1)
    (h2 : chainUpTo g f2 s stop = some c2) : c1 = c2 := by
  rcases Nat.le_total f1 f2 with h | h
  · have := chainUpTo_mono g f1 f2 s stop c1 h h1
    rw [this] at h2; exact Option.some.inj h2
  · have := chainUpTo_mono g f2 f1 s stop c2 h h2
    rw [this] at h1; exact (Option.some.inj h1).symm

theorem chainUpTo_mem_lookup (g : StateGraph) :
    ∀ (f : Nat) (s stop : Option Nat) (c : List Nat),
      chainUpTo g f s stop = some c → ∀ x ∈ c, (g.lookup x).isSome := by
  intro f
  induction f with
  | zero =>
    intro s stop c h x hx
    match s with
    | none => simp [chainUpTo] at h; subst h; simp at hx
    | some s =>
      simp only [chainUpTo] at h
      by_cases hstop : some s = stop
      · simp [hstop] at h; subst h; simp at hx
      · simp [hstop] at h
  | succ n ih =>
    intro s stop c h x hx
    match s with
    | none => simp [chainUpTo] at h; subst h; simp at hx
    | some s =>
      simp only [chainUpTo] at h
      by_cases hstop : some s = stop
      · simp [hstop] at h; subst h; simp at hx
      · simp only [if_neg hstop] at h
        match hl : g.lookup s with
        | none => rw [hl] at h; exact absurd h (by simp)
        | some st =>
          rw [hl] at h
          simp only [Option.map_eq_some'] at h
          obtain ⟨c', hc', rfl⟩ := h
          rcases List.mem_cons.mp hx with rfl | hx'
          · simp [hl]
          · exact ih st.parent stop c' hc' x hx'

theorem chainUpTo_mem_suffix (g : StateGraph) :
    ∀ (f : Nat) (s : Option Nat) (c : List Nat) (x : Nat),
      chainUpTo g f s none = some c → x ∈ c →
      ∃ post, (x :: post) <:+ c ∧ chainUpTo g f (some x) none = some (x :: post) := by
  intro f
  induction f with
  | zero =>
    intro s c x h hx
    match s with
    | none => simp [chainUpTo] at h; subst h; simp at hx
    | some s => simp [chainUpTo] at h
  | succ n ih =>
    intro s c x h hx
    match s with
    | none => simp [chainUpTo] at h; subst h; simp at hx
    | some s =>
      have h0 := h
      simp only [chainUpTo] at h
      rw [if_neg (by simp : ¬(some s = (none : Option Nat)))] at h
      match hl : g.lookup s with
      | none => rw [hl] at h; exact absurd h (by simp)
      | some st =>
        rw [hl] at h
        simp only [Option.map_eq_some'] at h
        obtain ⟨c', hc', rfl⟩ := h
        rcases List.mem_cons.mp hx with rfl | hx'
        · exact ⟨c', List.suffix_refl _, h0⟩
        · obtain ⟨post, hsuf, hch⟩ := ih st.parent c' x hc' hx'
          exact ⟨post, hsuf.trans (List.suffix_cons s c'),
            chainUpTo_mono g n (n + 1) (some x) none _ (by omega) hch⟩

theorem lcp_self : ∀ l : List Nat, lcp l l = l := by
  intro l
  induction l with
  | nil => rfl
  | cons a as ih => simp [lcp, ih]

theorem lcp_prefix_left : ∀ x y : List Nat, lcp x y <+: x := by
  intro x
  induction x with
  | nil =>
    intro y
    match y with
    | [] => exact List.prefix_refl _
    | _ :: _ => exact List.nil_prefix
  | cons a as ih =>
    intro y
    match y with
    | [] => exact List.nil_prefix
    | b :: bs =>
      by_cases hab : a = b
      · subst hab
        simp only [lcp, if_pos rfl]
        exact List.cons_prefix_cons.mpr ⟨rfl, ih bs⟩
      · simp [lcp, hab]

theorem lcp_prefix_right : ∀ x y : List Nat, lcp x y <+: y := by
  intro x
  induction x with
  | nil => intro y; exact List.nil_prefix
  | cons a as ih =>
    intro y
    match y with
    | [] => exact List.nil_prefix
    | b :: bs =>
      by_cases hab : a = b
      · subst hab
        simp only [lcp, if_pos rfl]
        exact List.cons_prefix_cons.mpr ⟨rfl, ih bs⟩
      · simp [lcp, hab]

theorem prefix_lcp : ∀ (p x y : List Nat), p <+: x → p <+: y → p <+: lcp x y := by
  intro p
  induction p with
  | nil => intro x y _ _; exact List.nil_prefix
  | cons a as ih =>
    intro x y hx hy
    match x with
    | [] => exact absurd hx (by simp)
    | b :: xs =>
      match y with
      | [] => exact absurd hy (by simp)
      | c :: ys =>
        obtain ⟨hab, hx'⟩ := List.cons_prefix_cons.mp hx
        obtain ⟨hac, hy'⟩ := List.cons_prefix_cons.mp hy
        subst hab
        subst hac
        simp only [lcp, if_pos rfl]
        exact List.cons_prefix_cons.mpr ⟨rfl, ih xs ys hx' hy'⟩

theorem lcp_append_last_ne :
    ∀ (x y : List Nat) (a b : Nat), x.length = y.length → a ≠ b →
      lcp (x ++ [a]) (y ++ [b]) = lcp x y := by
  intro x
  induction x with
  | nil =>
    intro y a b hlen hab
    match y with
    | [] => simp [lcp, hab]
    | _ :: _ => simp at hlen
  | cons u x ih =>
    intro y a b hlen hab
    match y with
    | [] => simp at hlen
    | v :: y =>
      by_cases huv : u = v
      · subst huv
        simp only [List.cons_append, lcp, if_pos rfl, List.append_eq]
        rw [ih y a b (by simpa using hlen) hab]
      · simp [lcp, huv]

theorem lcp_take_min :
    ∀ (x y : List Nat) (m : Nat), min x.length y.length ≤ m →
      lcp (x.take m) (y.take m) = lcp x y := by
  intro x
  induction x with
  | nil => intro y m _; simp [lcp]
  | cons u x ih =>
    intro y m hm
    match y with
    | [] =>
      simp only [List.take_nil]
      match h : (u :: x).take m with
      | [] => simp [lcp]
      | _ :: _ => simp [lcp]
    | v :: y =>
      have hm1 : 1 ≤ m := by simp at hm; omega
      obtain ⟨m', rfl⟩ : ∃ m', m = m' + 1 := ⟨m - 1, by omega⟩
      simp only [List.take_succ_cons]
      by_cases huv : u = v
      · subst huv
        simp only [lcp, if_pos rfl]
        rw [ih y m' (by simp at hm ⊢; omega)]
      · simp [lcp, huv]

theorem commonSuffix_suffix_left (c1 c2 : List Nat) : commonSuffix c1 c2 <:+ c1 := by
  have h := lcp_prefix_left c1.reverse c2.reverse
  have := List.reverse_suffix.mpr h
  simpa [commonSuffix] using this

theorem commonSuffix_suffix_right (c1 c2 : List Nat) : commonSuffix c1 c2 <:+ c2 := by
  have h := lcp_prefix_right c1.reverse c2.reverse
  have := List.reverse_suffix.mpr h
  simpa [commonSuffix] using this

theorem suffix_commonSuffix (s c1 c2 : List Nat)
    (h1 : s <:+ c1) (h2 : s <:+ c2) : s <:+ commonSuffix c1 c2 := by
  have p1 : s.reverse <+: c1.reverse := List.reverse_prefix.mpr h1
  have p2 : s.reverse <+: c2.reverse := List.reverse_prefix.mpr h2
  have := List.reverse_suffix.mpr (prefix_lcp s.reverse c1.reverse c2.reverse p1 p2)
  simpa [commonSuffix] using this

theorem commonSuffix_self (c : List Nat) : commonSuffix c c = c := by
  simp [commonSuffix, lcp_self]

theorem commonSuffix_cons_ne (s1 s2 : Nat) (r1 r2 : List Nat)
    (hlen : r1.length = r2.length) (hne : s1 ≠ s2) :
    commonSuffix (s1 :: r1) (s2 :: r2) = commonSuffix r1 r2 := by
  simp only [commonSuffix, List.reverse_cons]
  rw [lcp_append_last_ne r1.reverse r2.reverse s1 s2 (by simpa using hlen) hne]

theorem setCell_length_ge (buf : List Nat) (idx s : Nat) (h : idx ≤ buf.length) :
    idx + 1 ≤ (setCell buf idx s).length := by
  unfold setCell
  by_cases hlt : idx < buf.length
  · simp only [if_pos hlt, List.length_set]; omega
  · simp only [if_neg hlt, List.length_append, List.length_cons, List.length_nil]; omega

theorem setCell_get?_self (buf : List Nat) (idx s : Nat) (h : idx ≤ buf.length) :
    (setCell buf idx s).get? idx = some s := by
  unfold setCell
  by_cases hlt : idx < buf.length
  · simp [hlt, List.get?_set_eq_of_lt _ hlt]
  · have heq : idx = buf.length := by omega
    subst heq
    simp [hlt, List.get?_concat_length]

theorem setCell_get?_lt (buf : List Nat) (idx s j : Nat) (hj : j < idx)
    (h : idx ≤ buf.length) :
    (setCell buf idx s).get? j = buf.get? j := by
  unfold setCell
  by_cases hlt : idx < buf.length
  · simp [hlt, List.get?_eq_getElem?, List.getElem?_set_ne (by omega : idx ≠ j)]
  · simp [hlt, List.get?_eq_getElem?, List.getElem?_append_left (by omega : j < buf.length)]

theorem writeChain_get?_lt :
    ∀ (c buf : List Nat) (idx j : Nat), j < idx → idx ≤ buf.length →
      (writeChain buf idx c).get? j = buf.get? j := by
  intro c
  induction c with
  | nil => intro buf idx j _ _; rfl
  | cons s c ih =>
    intro buf idx j hj hle
    have h1 : idx + 1 ≤ (setCell buf idx s).length := setCell_length_ge buf idx s hle
    calc (writeChain buf idx (s :: c)).get? j
        = (writeChain (setCell buf idx s) (idx + 1) c).get? j := rfl
      _ = (setCell buf idx s).get? j := ih _ _ j (by omega) h1
      _ = buf.get? j := setCell_get?_lt buf idx s j hj hle

theorem writeChain_get?_at :
    ∀ (c buf : List Nat) (idx j : Nat), j < c.length → idx ≤ buf.length →
      (writeChain buf idx c).get? (idx + j) = c.get? j := by
  intro c
  induction c with
  | nil => intro buf idx j hj _; simp at hj
  | cons s c ih =>
    intro buf idx j hj hle
    have h1 : idx + 1 ≤ (setCell buf idx s).length := setCell_length_ge buf idx s hle
    match j with
    | 0 =>
      have hlow : (writeChain (setCell buf idx s) (idx + 1) c).get? idx
          = (setCell buf idx s).get? idx :=
        writeChain_get?_lt c _ (idx + 1) idx (by omega) h1
      show (writeChain (setCell buf idx s) (idx + 1) c).get? idx = some s
      rw [hlow]
      exact setCell_get?_self buf idx s hle
    | j + 1 =>
      show (writeChain (setCell buf idx s) (idx + 1) c).get? (idx + (j + 1)) = c.get? j
      have harith : idx + (j + 1) = (idx + 1) + j := by omega
      rw [harith]
      exact ih _ (idx + 1) j (by simpa using hj) h1

theorem chainUpTo_none (g : StateGraph) (f : Nat) (stop : Option Nat) :
    chainUpTo g f none stop = some [] := by
  cases f <;> rfl

theorem chainUpTo_some_cons (g : StateGraph) (f : Nat) (s : Nat) (c : List Nat)
    (h : chainUpTo g f (some s) none = some c) :
    ∃ st c', g.lookup s = some st ∧ c = s :: c' ∧
      chainUpTo g (f - 1) st.parent none = some c' ∧ 1 ≤ f := by
  match f with
  | 0 => simp [chainUpTo] at h
  | n + 1 =>
    simp only [chainUpTo] at h
    rw [if_neg (by simp : ¬(some s = (none : Option Nat)))] at h
    match hl : g.lookup s with
    | none => rw [hl] at h; exact absurd h (by simp)
    | some st =>
      rw [hl] at h
      simp only [Option.map_eq_some'] at h
      obtain ⟨c', hc', rfl⟩ := h
      exact ⟨st, c', rfl, rfl, by simpa using hc', by omega⟩

theorem get_state_depth_of_chain (g : StateGraph) :
    ∀ (f : Nat) (s : Option Nat) (c : List Nat),
      chainUpTo g f s none = some c →
      get_state_depth g f s = some (c.length % 256) := by
  intro f
  induction f with
  | zero =>
    intro s c h
    match s with
    | none => simp [chainUpTo] at h; subst h; simp [get_state_depth]
    | some s => simp [chainUpTo] at h
  | succ n ih =>
    intro s c h
    match s with
    | none => simp [chainUpTo] at h; subst h; simp [get_state_depth]
    | some s =>
      simp only [chainUpTo] at h
      rw [if_neg (by simp : ¬(some s = (none : Option Nat)))] at h
      match hl : g.lookup s with
      | none => rw [hl] at h; exact absurd h (by simp)
      | some st =>
        rw [hl] at h
        simp only [Option.map_eq_some'] at h
        obtain ⟨c', hc', rfl⟩ := h
        simp only [get_state_depth, hl, ih st.parent c' hc', Option.map_some']
        congr 1
        simp only [List.length_cons]
        omega

theorem walkUp_of_chain (g : StateGraph) :
    ∀ (k f : Nat) (s : Option Nat) (c : List Nat),
      chainUpTo g f s none = some c → k ≤ c.length →
      walkUp g k s = some ((c.drop k).head?) ∧
      chainUpTo g f ((c.drop k).head?) none = some (c.drop k) := by
  intro k
  induction k with
  | zero =>
    intro f s c h _
    match s with
    | none =>
      rw [chainUpTo_none] at h
      obtain rfl : c = [] := by simpa using h.symm
      exact ⟨rfl, by simpa using chainUpTo_none g f none⟩
    | some s =>
      obtain ⟨st, c', hl, rfl, hc', hf⟩ := chainUpTo_some_cons g f s c h
      exact ⟨rfl, by simpa using h⟩
  | succ k ih =>
    intro f s c h hk
    match s with
    | none =>
      rw [chainUpTo_none] at h
      obtain rfl : c = [] := by simpa using h.symm
      simp at hk
    | some s =>
      obtain ⟨st, c', hl, rfl, hc', hf⟩ := chainUpTo_some_cons g f s _ h
      have hk' : k ≤ c'.length := by simpa using hk
      have hih := ih (f - 1) st.parent c' hc' hk'
      constructor
      · show walkUp g (k + 1) (some s) = _
        simp only [walkUp, hl]
        simpa using hih.1
      · show chainUpTo g f (((s :: c').drop (k + 1)).head?) none = some ((s :: c').drop (k + 1))
        simp only [List.drop_succ_cons]
        exact chainUpTo_mono g (f - 1) f _ none _ (by omega) hih.2

theorem exitsOf_cons (g : StateGraph) (s : Nat) (c : List Nat) (st : SM_State)
    (hl : g.lookup s = some st) :
    exitsOf g (s :: c) =
      (if st.exitAction.isSome then [TraceEvent.exit s] else []) ++ exitsOf g c := by
  simp only [exitsOf, List.filterMap_cons, hl]
  by_cases hx : st.exitAction.isSome <;> simp [hx]

theorem entriesOf_cons (g : StateGraph) (s : Nat) (c : List Nat) (st : SM_State)
    (hl : g.lookup s = some st) :
    entriesOf g (s :: c) =
      (if st.entryAction.isSome then [TraceEvent.entry s] else []) ++ entriesOf g c := by
  simp only [entriesOf, List.filterMap_cons, hl]
  by_cases hx : st.entryAction.isSome <;> simp [hx]

theorem execute_exit_actions_of_chain (g : StateGraph) :
    ∀ (f : Nat) (s lca : Option Nat) (c : List Nat),
      chainUpTo g f s lca = some c →
      execute_exit_actions g f s lca = some (exitsOf g c) := by
  intro f
  induction f with
  | zero =>
    intro s lca c h
    match s with
    | none => simp [chainUpTo] at h; subst h; simp [execute_exit_actions, exitsOf]
    | some s =>
      simp only [chainUpTo] at h
      by_cases hstop : some s = lca
      · simp [hstop] at h; subst h; simp [execute_exit_actions, hstop, exitsOf]
      · simp [hstop] at h
  | succ n ih =>
    intro s lca c h
    match s with
    | none => simp [chainUpTo] at h; subst h; simp [execute_exit_actions, exitsOf]
    | some s =>
      simp only [chainUpTo] at h
      by_cases hstop : some s = lca
      · simp [hstop] at h; subst h; simp [execute_exit_actions, hstop, exitsOf]
      · rw [if_neg hstop] at h
        match hl : g.lookup s with
        | none => rw [hl] at h; exact absurd h (by simp)
        | some st =>
          rw [hl] at h
          simp only [Option.map_eq_some'] at h
          obtain ⟨c', hc', rfl⟩ := h
          simp only [execute_exit_actions, if_neg hstop, hl, ih st.parent lca c' hc',
            Option.map_some']
          rw [exitsOf_cons g s c' st hl]

theorem count_entry_path_of_chain (g : StateGraph) :
    ∀ (f : Nat) (s lca : Option Nat) (c : List Nat),
      chainUpTo g f s lca = some c →
      count_entry_path g f s lca = some c.length := by
  intro f
  induction f with
  | zero =>
    intro s lca c h
    match s with
    | none => simp [chainUpTo] at h; subst h; simp [count_entry_path]
    | some s =>
      simp only [chainUpTo] at h
      by_cases hstop : some s = lca
      · simp [hstop] at h; subst h; simp [count_entry_path, hstop]
      · simp [hstop] at h
  | succ n ih =>
    intro s lca c h
    match s with
    | none => simp [chainUpTo] at h; subst h; simp [count_entry_path]
    | some s =>
      simp only [chainUpTo] at h
      by_cases hstop : some s = lca
      · simp [hstop] at h; subst h; simp [count_entry_path, hstop]
      · rw [if_neg hstop] at h
        match hl : g.lookup s with
        | none => rw [hl] at h; exact absurd h (by simp)
        | some st =>
          rw [hl] at h
          simp only [Option.map_eq_some'] at h
          obtain ⟨c', hc', rfl⟩ := h
          simp [count_entry_path, if_neg hstop, hl, ih st.parent lca c' hc']

theorem lockstep_of_chains (g : StateGraph) :
    ∀ (f : Nat) (p1 p2 : Option Nat) (e1 e2 : List Nat),
      chainUpTo g f p1 none = some e1 →
      chainUpTo g f p2 none = some e2 →
      e1.length = e2.length →
      lockstep g f p1 p2 = some ((commonSuffix e1 e2).head?) := by
  intro f
  induction f with
  | zero =>
    intro p1 p2 e1 e2 h1 h2 _
    match p1 with
    | some s1 => simp [chainUpTo] at h1
    | none =>
      match p2 with
      | some s2 => simp [chainUpTo] at h2
      | none =>
        rw [chainUpTo_none] at h1 h2
        obtain rfl : e1 = [] := by simpa using h1.symm
        obtain rfl : e2 = [] := by simpa using h2.symm
        simp [lockstep, commonSuffix, lcp]
  | succ n ih =>
    intro p1 p2 e1 e2 h1 h2 hlen
    match p1 with
    | none =>
      rw [chainUpTo_none] at h1
      obtain rfl : e1 = [] := by simpa using h1.symm
      match p2 with
      | none =>
        rw [chainUpTo_none] at h2
        obtain rfl : e2 = [] := by simpa using h2.symm
        simp [lockstep, commonSuffix, lcp]
      | some s2 =>
        obtain ⟨st2, c2', hl2, rfl, _, _⟩ := chainUpTo_some_cons g (n + 1) s2 e2 h2
        simp at hlen
    | some s1 =>
      obtain ⟨st1, c1', hl1, rfl, hc1', _⟩ := chainUpTo_some_cons g (n + 1) s1 e1 h1
      match p2 with
      | none =>
        rw [chainUpTo_none] at h2
        obtain rfl : e2 = [] := by simpa using h2.symm
        simp at hlen
      | some s2 =>
        obtain ⟨st2, c2', hl2, rfl, hc2', _⟩ := chainUpTo_some_cons g (n + 1) s2 e2 h2
        by_cases heq : s1 = s2
        · subst heq
          have : c1' = c2' := by
            have := h1.symm.trans h2
            simpa using this
          subst this
          show lockstep g (n + 1) (some s1) (some s1) = _
          rw [commonSuffix_self]
          simp [lockstep]
        · have hlen' : c1'.length = c2'.length := by simpa using hlen
          have hrec := ih st1.parent st2.parent c1'  c2'
            (by simpa using hc1') (by simpa using hc2') hlen'
          show lockstep g (n + 1) (some s1) (some s2) = _
          rw [commonSuffix_cons_ne s1 s2 c1' c2' hlen' heq]
          simp only [lockstep, if_neg (by simp [heq] : ¬(some s1 = some s2)), hl1, hl2]
          exact hrec

theorem entries_from_of_agree (g : StateGraph) (cs : List Nat)
    (hlook : ∀ x ∈ cs, (g.lookup x).isSome) (buf : List Nat)
    (hagree : ∀ j, j < cs.length → buf.get? j = cs.get? j) :
    ∀ (k : Nat), k ≤ cs.length →
      entries_from g buf k = some (entriesOf g (cs.take k).reverse) := by
  intro k
  induction k with
  | zero => intro _; simp [entries_from, entriesOf]
  | succ k ih =>
    intro hk1
    have hklt : k < cs.length := by omega
    obtain ⟨ck, hck⟩ : ∃ ck, cs.get? k = some ck :=
      ⟨cs.get ⟨k, hklt⟩, List.get?_eq_get hklt⟩
    have hbk : buf.get? k = some ck := (hagree k hklt).trans hck
    obtain ⟨st, hst⟩ : ∃ st, g.lookup ck = some st :=
      Option.isSome_iff_exists.mp (hlook ck (List.get?_mem hck))
    have hgetElem : cs[k]? = some ck := by
      rw [← List.get?_eq_getElem?]; exact hck
    simp only [entries_from, hbk, hst]
    rw [ih (by omega)]
    simp only [Option.map_some']
    congr 1
    rw [List.take_succ, hgetElem]
    simp only [Option.toList_some, List.reverse_append, List.reverse_cons,
      List.reverse_nil, List.nil_append, List.singleton_append]
    rw [entriesOf_cons g ck _ st hst]

theorem machine_eta_buffer (sm : SM_StateMachine) (buf : List Nat)
    (h : sm.entryPathBuffer = some buf) :
    ({ sm with entryPathBuffer := some buf } : SM_StateMachine) = sm := by
  cases sm
  simp only [SM_StateMachine.mk.injEq] at h ⊢
  simp_all

theorem build_path_loop_of_chain (g : StateGraph) :
    ∀ (f : Nat) (s lca : Option Nat) (c : List Nat) (idx : Nat)
      (sm : SM_StateMachine) (buf : List Nat),
      chainUpTo g f s lca = some c →
      sm.entryPathBuffer = some buf →
      idx ≤ buf.length →
      idx + c.length ≤ sm.bufferSize →
      build_path_loop g f idx sm s lca =
        some (true, { sm with entryPathBuffer := some (writeChain buf idx c) }) := by
  intro f
  induction f with
  | zero =>
    intro s lca c idx sm buf h hbuf _ _
    match s with
    | none =>
      rw [chainUpTo_none] at h
      obtain rfl : c = [] := by simpa using h.symm
      show some (true, sm) = _
      rw [show writeChain buf idx [] = buf from rfl, machine_eta_buffer sm buf hbuf]
    | some s =>
      simp only [chainUpTo] at h
      by_cases hstop : some s = lca
      · simp only [if_pos hstop] at h
        obtain rfl : c = [] := by simpa using h.symm
        show build_path_loop g 0 idx sm (some s) lca = _
        simp only [build_path_loop, if_pos hstop]
        rw [show writeChain buf idx [] = buf from rfl, machine_eta_buffer sm buf hbuf]
      · simp [hstop] at h
  | succ n ih =>
    intro s lca c idx sm buf h hbuf hidx hcap
    match s with
    | none =>
      rw [chainUpTo_none] at h
      obtain rfl : c = [] := by simpa using h.symm
      show some (true, sm) = _
      rw [show writeChain buf idx [] = buf from rfl, machine_eta_buffer sm buf hbuf]
    | some s =>
      simp only [chainUpTo] at h
      by_cases hstop : some s = lca
      · simp only [if_pos hstop] at h
        obtain rfl : c = [] := by simpa using h.symm
        show build_path_loop g (n + 1) idx sm (some s) lca = _
        simp only [build_path_loop, if_pos hstop]
        rw [show writeChain buf idx [] = buf from rfl, machine_eta_buffer sm buf hbuf]
      · rw [if_neg hstop] at h
        match hl : g.lookup s with
        | none => rw [hl] at h; exact absurd h (by simp)
        | some st =>
          rw [hl] at h
          simp only [Option.map_eq_some'] at h
          obtain ⟨c', hc', rfl⟩ := h
          have hlt : idx < sm.bufferSize := by simp at hcap; omega
          show build_path_loop g (n + 1) idx sm (some s) lca = _
          simp only [build_path_loop, if_neg hstop, if_pos hlt, hbuf, hl]
          have hih := ih st.parent lca c' (idx + 1)
            { sm with entryPathBuffer := some (setCell buf idx s) }
            (setCell buf idx s) hc' rfl
            (setCell_length_ge buf idx s hidx)
            (by simp at hcap ⊢; omega)
          rw [hih]
          rfl

theorem build_path_loop_overflow (g : StateGraph) :
    ∀ (f : Nat) (s lca : Option Nat) (c : List Nat) (idx : Nat)
      (sm : SM_StateMachine) (buf : List Nat),
      chainUpTo g f s lca = some c →
      c ≠ [] →
      sm.entryPathBuffer = some buf →
      idx ≤ buf.length →
      sm.bufferSize < idx + c.length →
      ∃ buf1, build_path_loop g f idx sm s lca =
        some (false, { sm with entryPathBuffer := some buf1 }) := by
  intro f
  induction f with
  | zero =>
    intro s lca c idx sm buf h hc hbuf _ _
    match s with
    | none =>
      rw [chainUpTo_none] at h
      obtain rfl : c = [] := by simpa using h.symm
      exact absurd rfl hc
    | some s =>
      simp only [chainUpTo] at h
      by_cases hstop : some s = lca
      · simp only [if_pos hstop] at h
        obtain rfl : c = [] := by simpa using h.symm
        exact absurd rfl hc
      · simp [hstop] at h
  | succ n ih =>
    intro s lca c idx sm buf h hc hbuf hidx hover
    match s with
    | none =>
      rw [chainUpTo_none] at h
      obtain rfl : c = [] := by simpa using h.symm
      exact absurd rfl hc
    | some s =>
      simp only [chainUpTo] at h
      by_cases hstop : some s = lca
      · simp only [if_pos hstop] at h
        obtain rfl : c = [] := by simpa using h.symm
        exact absurd rfl hc
      · rw [if_neg hstop] at h
        match hl : g.lookup s with
        | none => rw [hl] at h; exact absurd h (by simp)
        | some st =>
          rw [hl] at h
          simp only [Option.map_eq_some'] at h
          obtain ⟨c', hc', rfl⟩ := h
          by_cases hlt : idx < sm.bufferSize
          · have hc'ne : c' ≠ [] := by
              intro hnil
              rw [hnil] at hover
              simp at hover
              omega
            have hih := ih st.parent lca c' (idx + 1)
              { sm with entryPathBuffer := some (setCell buf idx s) }
              (setCell buf idx s) hc' hc'ne rfl
              (setCell_length_ge buf idx s hidx)
              (by simp at hover ⊢; omega)
            obtain ⟨buf1, hb1⟩ := hih
            refine ⟨buf1, ?_⟩
            show build_path_loop g (n + 1) idx sm (some s) lca = _
            simp only [build_path_loop, if_neg hstop, if_pos hlt, hbuf, hl]
            exact hb1
          · refine ⟨buf, ?_⟩
            show build_path_loop g (n + 1) idx sm (some s) lca = _
            simp only [build_path_loop, if_neg hstop, if_neg hlt]
            rw [machine_eta_buffer sm buf hbuf]

/-- Number of entry-loop iterations computed from the `int8_t` start
index: for path lengths up to 128 it equals the path length. -/
theorem int8_path_count_small (L : Nat) (h : L ≤ 128) :
    (int8Wrap (int8OfUInt8 L - 1) + 1).toNat = L := by
  unfold int8Wrap int8OfUInt8
  have hmod : L % 256 = L := Nat.mod_eq_of_lt (by omega)
  rw [hmod]
  by_cases h1 : L < 128
  · rw [if_pos h1]
    omega
  · rw [if_neg h1]
    omega

/-- C2 (amended): for an external transition from the current state A
to a distinct state B whose LCA (as computed by the embedded resolver)
is `lca`, with the entry path fitting into the buffer and holding at
most 128 states (the bound imposed by the `int8_t` start index of the
entry loop), the produced trace is exactly the exit actions of the
chain from A up to (excluding) the LCA in child-to-parent order,
followed by exactly the entry actions of the chain from B up to
(excluding) the LCA in outermost-first order (the reverse of the
collected path), and the machine afterwards has `currentState = B`
(set before the entry actions are emitted), with the buffer holding
the collected path. -/
theorem c2_entry_exit_symmetry (g : StateGraph) (fuel : Nat) (sm : SM_StateMachine)
    (a b : Nat) (lca : Option Nat) (exitChain entryChain buf : List Nat)
    (ev : Option SM_Event)
    (hcur : sm.currentState = some a)
    (hab : a ≠ b)
    (hlca : find_lca g fuel (some a) (some b) = some lca)
    (hexit : chainUpTo g fuel (some a) lca = some exitChain)
    (hentry : chainUpTo g fuel (some b) lca = some entryChain)
    (hbuf : sm.entryPathBuffer = some buf)
    (hcap : entryChain.length ≤ sm.bufferSize)
    (hlen128 : entryChain.length ≤ 128) :
    perform_transition g fuel sm (some b) ev =
      some ({ sm with
                currentState := some b,
                entryPathBuffer := some (writeChain buf 0 entryChain) },
        exitsOf g exitChain ++ entriesOf g entryChain.reverse) := by
  have hne : ¬(sm.currentState = some b) := by rw [hcur]; simp [hab]
  have hexitrun : execute_exit_actions g fuel (some a) lca = some (exitsOf g exitChain) :=
    execute_exit_actions_of_chain g fuel (some a) lca exitChain hexit
  have hbuild := build_path_loop_of_chain g fuel (some b) lca entryChain 0 sm buf
    hentry hbuf (by omega) (by simpa using hcap)
  have hcount : count_entry_path g fuel (some b) lca = some entryChain.length :=
    count_entry_path_of_chain g fuel (some b) lca entryChain hentry
  have hagree : ∀ j, j < entryChain.length →
      (writeChain buf 0 entryChain).get? j = entryChain.get? j := by
    intro j hj
    have := writeChain_get?_at entryChain buf 0 j hj (by omega)
    simpa using this
  have hlook : ∀ x ∈ entryChain, (g.lookup x).isSome :=
    chainUpTo_mem_lookup g fuel (some b) lca entryChain hentry
  have hentryrun :
      execute_entry_actions g
        { sm with
            currentState := some b,
            entryPathBuffer := some (writeChain buf 0 entryChain) }
        entryChain.length = some (entriesOf g entryChain.reverse) := by
    unfold execute_entry_actions
    rw [int8_path_count_small entryChain.length hlen128]
    match hlen : entryChain.length with
    | 0 =>
      have : entryChain = [] := List.length_eq_zero.mp hlen
      subst this
      simp [entriesOf]
    | k + 1 =>
      show (match ({ sm with
          currentState := some b,
          entryPathBuffer := some (writeChain buf 0 entryChain) } :
            SM_StateMachine).entryPathBuffer with
        | none => none
        | some bf => entries_from g bf (k + 1)) = _
      simp only
      have := entries_from_of_agree g entryChain hlook (writeChain buf 0 entryChain)
        hagree (k + 1) (by omega)
      rw [this, List.take_of_length_le (by omega)]
  show perform_transition g fuel sm (some b) ev = _
  simp only [perform_transition, if_neg hne, hcur, hlca, hexitrun]
  unfold build_entry_path
  rw [hbuild]
  simp only [if_pos rfl, hcount]
  rw [hentryrun]
  simp [hab]

/-- Witness for C2 on the demo hierarchy: the transition Idle to Off
(LCA Root) exits Idle then On and enters Off, with currentState moved
to Off. -/
theorem c2_entry_exit_symmetry_witness :
    perform_transition demoGraph 8 demoMachine (some 3) none =
      some ({ demoMachine with
                currentState := some 3,
                entryPathBuffer := some [3] },
        [TraceEvent.exit 2, TraceEvent.exit 1, TraceEvent.entry 3]) := by
  have h := c2_entry_exit_symmetry demoGraph 8 demoMachine 2 3 (some 0)
    [2, 1] [3] [] none rfl (by decide) rfl rfl rfl rfl (by decide) (by decide)
  exact h

theorem exitsOf_no_entry (g : StateGraph) (c : List Nat) :
    ∀ s, TraceEvent.entry s ∉ exitsOf g c := by
  intro s hmem
  simp only [exitsOf, List.mem_filterMap] at hmem
  obtain ⟨x, _, hx⟩ := hmem
  match hls : g.lookup x with
  | none => rw [hls] at hx; simp at hx
  | some st =>
    rw [hls] at hx
    by_cases ha : st.exitAction.isSome <;> simp [ha] at hx

/-- C3: when the entry path from the target B up to the LCA is longer
than the buffer capacity, the transition aborts after the exit actions:
the produced trace holds exactly the exit actions of the chain from the
current state A to the LCA and no entry action, and the machine is
unchanged except for the partially written buffer; in particular
`currentState` keeps its pre-transition value. -/
theorem c3_buffer_overflow_aborts (g : StateGraph) (fuel : Nat) (sm : SM_StateMachine)
    (a b : Nat) (lca : Option Nat) (exitChain entryChain buf : List Nat)
    (ev : Option SM_Event)
    (hcur : sm.currentState = some a)
    (hab : a ≠ b)
    (hlca : find_lca g fuel (some a) (some b) = some lca)
    (hexit : chainUpTo g fuel (some a) lca = some exitChain)
    (hentry : chainUpTo g fuel (some b) lca = some entryChain)
    (hbuf : sm.entryPathBuffer = some buf)
    (hcap : sm.bufferSize < entryChain.length) :
    ∃ buf1,
      perform_transition g fuel sm (some b) ev =
        some ({ sm with entryPathBuffer := some buf1 }, exitsOf g exitChain) ∧
      ({ sm with entryPathBuffer := some buf1 } : SM_StateMachine).currentState
        = sm.currentState ∧
      (∀ s, TraceEvent.entry s ∉ exitsOf g exitChain) := by
  have hexitrun := execute_exit_actions_of_chain g fuel (some a) lca exitChain hexit
  have hcne : entryChain ≠ [] := by
    intro h0
    rw [h0] at hcap
    simp at hcap
  obtain ⟨buf1, hbuild⟩ := build_path_loop_overflow g fuel (some b) lca entryChain 0 sm buf
    hentry hcne hbuf (by omega) (by simpa using hcap)
  refine ⟨buf1, ?_, rfl, exitsOf_no_entry g exitChain⟩
  show perform_transition g fuel sm (some b) ev = _
  simp only [perform_transition, hcur, hlca, hexitrun]
  unfold build_entry_path
  rw [hbuild]
  simp [hab, hcur]

/-- Machine used by the C3 witness: sitting in Idle with a zero-capacity
entry path buffer. -/
def tinyMachine : SM_StateMachine :=
  { currentState := some 2, initialState := some 2, userData := none,
    unhandledEventHook := true, entryPathBuffer := some [], bufferSize := 0 }

/-- Witness for C3: with buffer capacity 0 the Idle-to-Off transition
runs the exit actions of Idle and On, then aborts with currentState
still Idle and no entry action. -/
theorem c3_buffer_overflow_aborts_witness :
    ∃ buf1,
      perform_transition demoGraph 8 tinyMachine (some 3) none =
        some ({ tinyMachine with entryPathBuffer := some buf1 },
          [TraceEvent.exit 2, TraceEvent.exit 1]) ∧
      ({ tinyMachine with entryPathBuffer := some buf1 } : SM_StateMachine).currentState
        = tinyMachine.currentState ∧
      (∀ s, TraceEvent.entry s ∉ [TraceEvent.exit 2, TraceEvent.exit 1]) := by
  have h := c3_buffer_overflow_aborts demoGraph 8 tinyMachine 2 3 (some 0)
    [2, 1] [3] [] none rfl (by decide) rfl rfl rfl rfl (by decide)
  exact h

/-- C4: find_lca returns NULL when either input is NULL; for two
non-NULL states whose root chains terminate (with true depths below the
`uint8_t` bound), it returns the head of the longest common suffix of
the two root chains, i.e. the deepest common ancestor: the returned
state is a common ancestor, every common ancestor lies in that common
suffix (so the result is the lowest), and for disjoint hierarchies
(no common element) the lockstep walk ends with both pointers NULL and
the result is NULL. -/
theorem c4_find_lca_correct (g : StateGraph) (fuel : Nat) :
    (∀ s2, find_lca g fuel none s2 = some none) ∧
    (∀ s1, find_lca g fuel s1 none = some none) ∧
    (∀ a b c1 c2,
      chainUpTo g fuel (some a) none = some c1 →
      chainUpTo g fuel (some b) none = some c2 →
      c1.length < 256 → c2.length < 256 →
      find_lca g fuel (some a) (some b) = some ((commonSuffix c1 c2).head?) ∧
      (∀ l, (commonSuffix c1 c2).head? = some l → l ∈ c1 ∧ l ∈ c2) ∧
      (∀ x, x ∈ c1 → x ∈ c2 → x ∈ commonSuffix c1 c2) ∧
      ((∀ x, x ∈ c1 → x ∉ c2) → find_lca g fuel (some a) (some b) = some none)) := by
  refine ⟨fun s2 => rfl, fun s1 => by cases s1 <;> rfl, ?_⟩
  intro a b c1 c2 h1 h2 hl1 hl2
  have hd1 := get_state_depth_of_chain g fuel (some a) c1 h1
  have hd2 := get_state_depth_of_chain g fuel (some b) c2 h2
  rw [Nat.mod_eq_of_lt hl1] at hd1
  rw [Nat.mod_eq_of_lt hl2] at hd2
  have hw1 := walkUp_of_chain g (c1.length - c2.length) fuel (some a) c1 h1 (by omega)
  have hw2 := walkUp_of_chain g (c2.length - c1.length) fuel (some b) c2 h2 (by omega)
  have hlen : (c1.drop (c1.length - c2.length)).length
      = (c2.drop (c2.length - c1.length)).length := by
    rw [List.length_drop, List.length_drop]
    omega
  have hlock := lockstep_of_chains g fuel _ _ _ _ hw1.2 hw2.2 hlen
  have hcs : commonSuffix (c1.drop (c1.length - c2.length))
      (c2.drop (c2.length - c1.length)) = commonSuffix c1 c2 := by
    unfold commonSuffix
    rw [List.reverse_drop, List.reverse_drop]
    have hm1 : c1.length - (c1.length - c2.length) = min c1.length c2.length := by omega
    have hm2 : c2.length - (c2.length - c1.length) = min c1.length c2.length := by omega
    rw [hm1, hm2]
    rw [lcp_take_min c1.reverse c2.reverse (min c1.length c2.length) (by simp)]
  have hmain : find_lca g fuel (some a) (some b) = some ((commonSuffix c1 c2).head?) := by
    show find_lca g fuel (some a) (some b) = _
    simp only [find_lca, hd1, hd2, hw1.1, hw2.1, hlock, hcs]
  refine ⟨hmain, ?_, ?_, ?_⟩
  · intro l hl
    have hmem : l ∈ commonSuffix c1 c2 := List.mem_of_mem_head? (by simp [hl])
    exact ⟨(commonSuffix_suffix_left c1 c2).subset hmem,
      (commonSuffix_suffix_right c1 c2).subset hmem⟩
  · intro x hx1 hx2
    obtain ⟨p1, hs1, hch1⟩ := chainUpTo_mem_suffix g fuel (some a) c1 x h1 hx1
    obtain ⟨p2, hs2, hch2⟩ := chainUpTo_mem_suffix g fuel (some b) c2 x h2 hx2
    have hp : p1 = p2 := by
      have := chainUpTo_det g hch1 hch2
      simpa using this
    subst hp
    have hsub := suffix_commonSuffix (x :: p1) c1 c2 hs1 hs2
    exact hsub.subset (List.mem_cons_self x p1)
  · intro hdis
    rw [hmain]
    match hcs2 : commonSuffix c1 c2 with
    | [] => rfl
    | x :: rest =>
      have hx1 : x ∈ c1 := (commonSuffix_suffix_left c1 c2).subset
        (by rw [hcs2]; exact List.mem_cons_self x rest)
      have hx2 : x ∈ c2 := (commonSuffix_suffix_right c1 c2).subset
        (by rw [hcs2]; exact List.mem_cons_self x rest)
      exact absurd hx2 (hdis x hx1)

/-- Witness for C4 on the demo hierarchy: the LCA of Idle and Off is
Root (chains [2,1,0] and [3,0], common suffix head 0). -/
theorem c4_find_lca_correct_witness :
    find_lca demoGraph 8 (some 2) (some 3) = some (some 0) := by
  have h := ((c4_find_lca_correct demoGraph 8).2.2 2 3 [2, 1, 0] [3, 0]
    rfl rfl (by decide) (by decide)).1
  exact h.trans (by decide)

theorem execute_exit_actions_no_hook (g : StateGraph) :
    ∀ (f : Nat) (s lca : Option Nat) (tr : List TraceEvent),
      execute_exit_actions g f s lca = some tr →
      ∀ e, TraceEvent.hook e ∉ tr := by
  intro f
  induction f with
  | zero =>
    intro s lca tr h e
    match s with
    | none =>
      simp [execute_exit_actions] at h
      subst h; simp
    | some s =>
      simp only [execute_exit_actions] at h
      by_cases hstop : some s = lca
      · simp [hstop] at h; subst h; simp
      · simp [hstop] at h
  | succ n ih =>
    intro s lca tr h e
    match s with
    | none =>
      simp [execute_exit_actions] at h
      subst h; simp
    | some s =>
      simp only [execute_exit_actions] at h
      by_cases hstop : some s = lca
      · simp [hstop] at h; subst h; simp
      · rw [if_neg hstop] at h
        match hl : g.lookup s with
        | none => rw [hl] at h; exact absurd h (by simp)
        | some st =>
          rw [hl] at h
          simp only [Option.map_eq_some'] at h
          obtain ⟨tr', htr', rfl⟩ := h
          intro hmem
          rcases List.mem_append.mp hmem with hm | hm
          · by_cases hx : st.exitAction.isSome <;> simp [hx] at hm
          · exact ih st.parent lca tr' htr' e hm

theorem entries_from_no_hook (g : StateGraph) (buf : List Nat) :
    ∀ (k : Nat) (tr : List TraceEvent),
      entries_from g buf k = some tr → ∀ e, TraceEvent.hook e ∉ tr := by
  intro k
  induction k with
  | zero =>
    intro tr h e
    simp [entries_from] at h
    subst h; simp
  | succ k ih =>
    intro tr h e
    simp only [entries_from] at h
    match hb : buf.get? k with
    | none => rw [hb] at h; simp only [] at h; exact absurd h (by simp)
    | some s =>
      rw [hb] at h
      simp only [] at h
      match hl : g.lookup s with
      | none => rw [hl] at h; exact absurd h (by simp)
      | some st =>
        rw [hl] at h
        simp only [Option.map_eq_some'] at h
        obtain ⟨tr', htr', rfl⟩ := h
        intro hmem
        rcases List.mem_append.mp hmem with hm | hm
        · by_cases hx : st.entryAction.isSome <;> simp [hx] at hm
        · exact ih tr' htr' e hm

theorem execute_entry_actions_no_hook (g : StateGraph) (sm : SM_StateMachine)
    (pathLength : Nat) (tr : List TraceEvent)
    (h : execute_entry_actions g sm pathLength = some tr) :
    ∀ e, TraceEvent.hook e ∉ tr := by
  unfold execute_entry_actions at h
  match hcnt : (int8Wrap (int8OfUInt8 pathLength - 1) + 1).toNat with
  | 0 =>
    rw [hcnt] at h
    simp only [] at h
    obtain rfl : [] = tr := Option.some.inj h
    simp
  | k + 1 =>
    rw [hcnt] at h
    simp only [] at h
    match hb : sm.entryPathBuffer with
    | none => rw [hb] at h; simp only [] at h; exact absurd h (by simp)
    | some buf =>
      rw [hb] at h
      simp only [] at h
      exact entries_from_no_hook g buf (k + 1) tr h

theorem perform_transition_no_hook (g : StateGraph) (f : Nat) (sm : SM_StateMachine)
    (tgt : Option Nat) (ev : Option SM_Event) (sm2 : SM_StateMachine)
    (tr : List TraceEvent)
    (h : perform_transition g f sm tgt ev = some (sm2, tr)) :
    ∀ e, TraceEvent.hook e ∉ tr := by
  intro e
  unfold perform_transition at h
  match tgt with
  | none =>
    simp only [] at h
    obtain rfl : [] = tr := congrArg Prod.snd (Option.some.inj h)
    simp
  | some target =>
    simp only [] at h
    by_cases hself : sm.currentState = some target
    · rw [if_pos hself] at h
      match hl : g.lookup target with
      | none => rw [hl] at h; exact absurd h (by simp)
      | some st =>
        rw [hl] at h
        obtain rfl : _ = tr := congrArg Prod.snd (Option.some.inj h)
        intro hmem
        rcases List.mem_append.mp hmem with hm | hm
        · by_cases hx : st.exitAction.isSome <;> simp [hx] at hm
        · by_cases hx : st.entryAction.isSome <;> simp [hx] at hm
    · rw [if_neg hself] at h
      match hlca : find_lca g f sm.currentState (some target) with
      | none => rw [hlca] at h; exact absurd h (by simp)
      | some lca =>
        rw [hlca] at h
        simp only [] at h
        match hex : execute_exit_actions g f sm.currentState lca with
        | none => rw [hex] at h; exact absurd h (by simp)
        | some exitTr =>
          rw [hex] at h
          simp only [] at h
          match hbe : build_entry_path g f sm (some target) lca with
          | none => rw [hbe] at h; exact absurd h (by simp)
          | some (pathBuilt, sm1) =>
            rw [hbe] at h
            simp only [] at h
            by_cases hpb : pathBuilt = true
            · rw [if_pos hpb] at h
              match hcnt : count_entry_path g f (some target) lca with
              | none => rw [hcnt] at h; exact absurd h (by simp)
              | some pathLen =>
                rw [hcnt] at h
                simp only [] at h
                match hen : execute_entry_actions g
                    { sm1 with currentState := some target } pathLen with
                | none => rw [hen] at h; exact absurd h (by simp)
                | some entryTr =>
                  rw [hen] at h
                  obtain rfl : _ = tr := congrArg Prod.snd (Option.some.inj h)
                  intro hmem
                  rcases List.mem_append.mp hmem with hm | hm
                  · exact execute_exit_actions_no_hook g f sm.currentState lca
                      exitTr hex e hm
                  · exact execute_entry_actions_no_hook g _ pathLen entryTr hen e hm
            · rw [if_neg hpb] at h
              obtain rfl : exitTr = tr := congrArg Prod.snd (Option.some.inj h)
              exact execute_exit_actions_no_hook g f sm.currentState lca exitTr hex e

theorem transition_action_trace_no_hook (t : SM_Transition) :
    ∀ e, TraceEvent.hook e ∉ transition_action_trace t := by
  intro e
  unfold transition_action_trace
  cases t.action <;> simp

theorem execute_transition_shape (g : StateGraph) (f : Nat) (sm : SM_StateMachine)
    (t : SM_Transition) (e : SM_Event) :
    ∀ (b : Bool) (sm2 : SM_StateMachine) (tr : List TraceEvent),
      execute_transition g f sm t e = some (b, sm2, tr) →
      b = true ∧ ∀ e2, TraceEvent.hook e2 ∉ tr := by
  intro b sm2 tr h
  unfold execute_transition at h
  match ht : t.type with
  | SM_TransitionType.intern =>
    rw [ht] at h
    simp only [] at h
    have h1 := Option.some.inj h
    obtain rfl : b = true := (congrArg Prod.fst h1).symm
    obtain rfl : transition_action_trace t = tr :=
      congrArg Prod.snd (congrArg Prod.snd h1)
    exact ⟨rfl, transition_action_trace_no_hook t⟩
  | SM_TransitionType.ext =>
    rw [ht] at h
    simp only [] at h
    match hp : perform_transition g f sm t.target (some e) with
    | none => rw [hp] at h; exact absurd h (by simp)
    | some (sm', tr') =>
      rw [hp] at h
      simp only [] at h
      have h1 := Option.some.inj h
      obtain rfl : b = true := (congrArg Prod.fst h1).symm
      obtain rfl : transition_action_trace t ++ tr' = tr :=
        congrArg Prod.snd (congrArg Prod.snd h1)
      refine ⟨rfl, fun e2 hmem => ?_⟩
      rcases List.mem_append.mp hmem with hm | hm
      · exact transition_action_trace_no_hook t e2 hm
      · exact perform_transition_no_hook g f sm t.target (some e) sm' tr' hp e2 hm

/-- Specification-side predicate: state `st` handles event `e` exactly
when its table yields a matching transition whose guard passed (the
condition under which `process_state_transitions` reports handled). -/
def handlesEvent (sm : SM_StateMachine) (st : SM_State) (e : SM_Event) : Bool :=
  (find_matching_transition st e sm).1.isSome && (find_matching_transition st e sm).2

theorem process_not_handled (g : StateGraph) (f : Nat) (sm : SM_StateMachine)
    (st : SM_State) (e : SM_Event) (h : handlesEvent sm st e = false) :
    process_state_transitions g f sm st e = some (false, sm, []) := by
  unfold handlesEvent at h
  unfold process_state_transitions
  match hm : find_matching_transition st e sm with
  | (none, gp) => rfl
  | (some t, gp) =>
    rw [hm] at h
    simp at h
    rw [h]

theorem process_handled_shape (g : StateGraph) (f : Nat) (sm : SM_StateMachine)
    (st : SM_State) (e : SM_Event) (h : handlesEvent sm st e = true) :
    ∀ (b : Bool) (sm2 : SM_StateMachine) (tr : List TraceEvent),
      process_state_transitions g f sm st e = some (b, sm2, tr) →
      b = true ∧ ∀ e2, TraceEvent.hook e2 ∉ tr := by
  intro b sm2 tr hp
  unfold handlesEvent at h
  unfold process_state_transitions at hp
  match hm : find_matching_transition st e sm with
  | (none, gp) => rw [hm] at h; simp at h
  | (some t, false) => rw [hm] at h; simp at h
  | (some t, true) =>
    rw [hm] at hp
    exact execute_transition_shape g f sm t e b sm2 tr hp

theorem dispatch_loop_unhandled (g : StateGraph) (ifuel : Nat) (sm : SM_StateMachine)
    (e : SM_Event) :
    ∀ (f : Nat) (s : Option Nat) (c : List Nat),
      chainUpTo g f s none = some c →
      (∀ x st, x ∈ c → g.lookup x = some st → handlesEvent sm st e = false) →
      dispatch_loop g ifuel sm e f s = some (false, sm, []) := by
  intro f
  induction f with
  | zero =>
    intro s c h hno
    match s with
    | none => rfl
    | some s => simp [chainUpTo] at h
  | succ n ih =>
    intro s c h hno
    match s with
    | none => rfl
    | some s =>
      obtain ⟨st, c', hl, rfl, hc', -⟩ := chainUpTo_some_cons g (n + 1) s _ h
      have hns := hno s st (List.mem_cons_self s c') hl
      show dispatch_loop g ifuel sm e (n + 1) (some s) = _
      simp only [dispatch_loop, hl]
      rw [process_not_handled g ifuel sm st e hns]
      exact ih st.parent c' (by simpa using hc')
        (fun x st2 hx => hno x st2 (List.mem_cons_of_mem s hx))

theorem dispatch_loop_handled (g : StateGraph) (ifuel : Nat) (sm : SM_StateMachine)
    (e : SM_Event) :
    ∀ (pre : List Nat) (f : Nat) (s : Option Nat) (x : Nat) (post : List Nat)
      (st : SM_State),
      chainUpTo g f s none = some (pre ++ x :: post) →
      (∀ y st2, y ∈ pre → g.lookup y = some st2 → handlesEvent sm st2 e = false) →
      g.lookup x = some st →
      handlesEvent sm st e = true →
      dispatch_loop g ifuel sm e f s = process_state_transitions g ifuel sm st e := by
  intro pre
  induction pre with
  | nil =>
    intro f s x post st h hpre hlx hh
    match s with
    | none =>
      rw [chainUpTo_none] at h
      simp at h
    | some s =>
      obtain ⟨st0, c', hl0, hcons, hc', hf⟩ := chainUpTo_some_cons g f s _ h
      obtain ⟨heq1, heq2⟩ := List.cons.inj hcons
      subst heq1
      subst heq2
      obtain rfl : st0 = st := by
        have := hl0.symm.trans hlx
        simpa using this
      obtain ⟨n, rfl⟩ : ∃ n, f = n + 1 := ⟨f - 1, by omega⟩
      show dispatch_loop g ifuel sm e (n + 1) (some x) = _
      simp only [dispatch_loop, hl0]
      match hp : process_state_transitions g ifuel sm st0 e with
      | none => rfl
      | some (b, sm2, tr) =>
        obtain ⟨rfl, -⟩ := process_handled_shape g ifuel sm st0 e hh b sm2 tr hp
        rfl
  | cons y pre ih =>
    intro f s x post st h hpre hlx hh
    match s with
    | none =>
      rw [chainUpTo_none] at h
      simp at h
    | some s =>
      obtain ⟨st0, c', hl0, hcons, hc', hf⟩ := chainUpTo_some_cons g f s _ h
      rw [List.cons_append] at hcons
      obtain ⟨heq1, heq2⟩ := List.cons.inj hcons
      subst heq1
      subst heq2
      have hny := hpre y st0 (List.mem_cons_self y pre) hl0
      obtain ⟨n, rfl⟩ : ∃ n, f = n + 1 := ⟨f - 1, by omega⟩
      show dispatch_loop g ifuel sm e (n + 1) (some y) = _
      simp only [dispatch_loop, hl0]
      rw [process_not_handled g ifuel sm st0 e hny]
      exact ih n st0.parent x post st (by simpa using hc')
        (fun z st2 hz => hpre z st2 (List.mem_cons_of_mem y hz)) hlx hh

/-- C7: let `c` be the ancestor chain of the current state.  If no
state on the chain handles the event, SM_Dispatch returns false and the
trace is exactly one hook invocation with the original event when a
hook is registered (and empty otherwise).  If some state handles the
event (first handler after a prefix of non-handlers), the walk stops
there: the dispatch result is exactly the processing of that state, the
result is handled = true, and no hook invocation appears in the
trace. -/
theorem c7_unhandled_hook (g : StateGraph) (fuel : Nat) (sm : SM_StateMachine)
    (e : SM_Event) (c : List Nat)
    (hchain : chainUpTo g fuel sm.currentState none = some c) :
    ((∀ x st, x ∈ c → g.lookup x = some st → handlesEvent sm st e = false) →
      SM_Dispatch g fuel (some sm) (some e) =
        some (false, some sm,
          if sm.unhandledEventHook then [TraceEvent.hook e] else [])) ∧
    (∀ pre x post st, c = pre ++ x :: post →
      (∀ y st2, y ∈ pre → g.lookup y = some st2 → handlesEvent sm st2 e = false) →
      g.lookup x = some st →
      handlesEvent sm st e = true →
      SM_Dispatch g fuel (some sm) (some e) =
        (process_state_transitions g fuel sm st e).map
          (fun r => (r.1, some r.2.1, r.2.2)) ∧
      (∀ b sm2 tr, process_state_transitions g fuel sm st e = some (b, sm2, tr) →
        b = true ∧ ∀ e2, TraceEvent.hook e2 ∉ tr)) := by
  constructor
  · intro hno
    have hloop := dispatch_loop_unhandled g fuel sm e fuel sm.currentState c hchain hno
    show SM_Dispatch g fuel (some sm) (some e) = _
    simp only [SM_Dispatch, hloop]
    cases hk : sm.unhandledEventHook <;> simp
  · intro pre x post st hc hpre hlx hh
    subst hc
    have hloop := dispatch_loop_handled g fuel sm e pre fuel sm.currentState x post st
      hchain hpre hlx hh
    refine ⟨?_, process_handled_shape g fuel sm st e hh⟩
    show SM_Dispatch g fuel (some sm) (some e) = _
    simp only [SM_Dispatch, hloop]
    match hp : process_state_transitions g fuel sm st e with
    | none => rfl
    | some (b, sm2, tr) =>
      obtain ⟨rfl, -⟩ := process_handled_shape g fuel sm st e hh b sm2 tr hp
      simp

/-- Witness for C7 on the demo hierarchy: event 99 matches no entry in
the chain Idle, On, Root, so the hook fires once with the event and the
dispatch reports unhandled. -/
theorem c7_unhandled_hook_witness :
    SM_Dispatch demoGraph 8 (some demoMachine)
      (some { id := 99, context := none }) =
      some (false, some demoMachine,
        [TraceEvent.hook { id := 99, context := none }]) := by
  have h := (c7_unhandled_hook demoGraph 8 demoMachine
    { id := 99, context := none } [2, 1, 0] rfl).1
  have hno : ∀ x st, x ∈ [2, 1, 0] → demoGraph.lookup x = some st →
      handlesEvent demoMachine st { id := 99, context := none } = false := by
    intro x st hx hl
    fin_cases hx <;>
      · injection hl with h2
        subst h2
        decide
  exact (h hno).trans (by decide)

set_option maxRecDepth 4000

/-- Linear hierarchy of 130 states used by the C2 counterexample:
state i has parent i+1 (state 129 is the root) and every state has an
entry action (label i), so a transition from the root to state 0 has
an entry path of 129 states, each carrying an entry action. -/
def deepGraph : StateGraph :=
  ⟨(List.range 130).map (fun i =>
    { parent := if i + 1 < 130 then some (i + 1) else none,
      entryAction := some i, exitAction := none,
      transitions := [], name := none })⟩

/-- Machine sitting in the root of the deep hierarchy, with a buffer
large enough (200) for the 129-state entry path. -/
def deepMachine : SM_StateMachine :=
  { currentState := some 129, initialState := some 129, userData := none,
    unhandledEventHook := false, entryPathBuffer := some [], bufferSize := 200 }

/-- Counterexample to C2 as stated: transitioning from the root
(state 129) to state 0 has LCA 129 and an entry path of 129 states
(all with entry actions) fitting the 200-cell buffer, yet the embedded
code produces an empty trace: `(int8_t)path_length` is negative for
path length 129, so the entry loop never runs even though
`currentState` is committed to the target.  The claim would require
the 129 entry actions of the path (a nonempty trace). -/
theorem c2_int8_wrap_counterexample :
    chainUpTo deepGraph 200 (some 0) (some 129) = some (List.range 129) ∧
    find_lca deepGraph 200 (some 129) (some 0) = some (some 129) ∧
    (List.range 129).length ≤ deepMachine.bufferSize ∧
    entriesOf deepGraph (List.range 129).reverse ≠ [] ∧
    perform_transition deepGraph 200 deepMachine (some 0) none =
      some ({ deepMachine with
                currentState := some 0,
                entryPathBuffer := some (List.range 129) }, []) := by
  refine ⟨by decide, by decide, by decide, by decide, by decide⟩
